import Mathlib

/-!
Verification of the move-generation and transposition-table core of the
Stockfish-derived chess engine (movegen.cpp, tt.h).

The board itself ("Position") is an external collaborator: move generation
only consumes its query primitives, so Position is embedded as a structure of
abstract query functions.  Bitboards are 64-bit words embedded as `Nat` with
explicit `% 2^64` where overflow matters.  The transposition-table entry codec
of tt.h is embedded with explicit masking/truncation arithmetic.
-/

/-! ## Transposition entry codec (tt.h) -/

/-- Truncation of an integer to a signed 16-bit value, the effect of the
`int16_t(v)` casts in `TTEntry::save`. -/
def toInt16 (v : Int) : Int := (v + 2 ^ 15) % 2 ^ 16 - 2 ^ 15

/-- A transposition-table entry: 32-bit truncated key, 32-bit packed data
word, and four 16-bit signed fields, mirroring the `TTEntry` class layout. -/
structure TTEntry where
  key32 : Nat
  data : Nat
  value16 : Int
  depth16 : Int
  staticValue : Int
  staticValueMargin : Int
deriving DecidableEq, Repr

/-- The 32-bit packed data word written by save and set_generation:
`(m & 0x1FFFF) | (t << 21) | (g << 23)`, reduced to the uint32 width. -/
def packData (m t g : Nat) : Nat :=
  ((m &&& 0x1FFFF) ||| (t <<< 21) ||| (g <<< 23)) % 2 ^ 32

/-- `TTEntry::save`: overwrites all fields, packing move/bound-type/generation
into the data word and truncating the four value fields to 16 bits. -/
def TTEntry.save (k : Nat) (v : Int) (t : Nat) (d : Int) (m : Nat) (g : Nat)
    (statV : Int) (kd : Int) : TTEntry :=
  { key32 := k % 2 ^ 32
    data := packData m t g
    value16 := toInt16 v
    depth16 := toInt16 d
    staticValue := toInt16 statV
    staticValueMargin := toInt16 kd }

/-- Accessor `key()`. -/
def TTEntry.key (e : TTEntry) : Nat := e.key32

/-- Accessor `move()`: low 17 bits of the data word. -/
def TTEntry.move (e : TTEntry) : Nat := e.data &&& 0x1FFFF

/-- Accessor `type()`: bits 21-22 of the data word. -/
def TTEntry.type (e : TTEntry) : Nat := (e.data >>> 21) &&& 3

/-- Accessor `generation()`: bits 23 and above of the data word. -/
def TTEntry.generation (e : TTEntry) : Nat := e.data >>> 23

/-- Accessor `value()`. -/
def TTEntry.value (e : TTEntry) : Int := e.value16

/-- Accessor `depth()`. -/
def TTEntry.depth (e : TTEntry) : Int := e.depth16

/-- Accessor `static_value()`. -/
def TTEntry.static_value (e : TTEntry) : Int := e.staticValue

/-- Accessor `static_value_margin()`. -/
def TTEntry.static_value_margin (e : TTEntry) : Int := e.staticValueMargin

/-- `TTEntry::set_generation(g)`: rebuilds the data word from the decoded
move and bound-type together with the new generation. -/
def TTEntry.set_generation (g : Nat) (e : TTEntry) : TTEntry :=
  { e with data := ((e.move) ||| (e.type <<< 21) ||| (g <<< 23)) % 2 ^ 32 }

/-! ## Move generation: basic types

The move type is not under src (move.h is absent).  Modelled from the spec:
a Move is an encoded record of from-square, to-square, a special-kind flag
(none / promotion / en-passant / castle) and a promotion piece type, compared
by encoded value, which structural equality mirrors. -/

/-- Piece colors. -/
inductive Color where
  | WHITE
  | BLACK
deriving DecidableEq, Repr

/-- `opposite_color`. -/
def opposite_color : Color → Color
  | .WHITE => .BLACK
  | .BLACK => .WHITE

/-- Piece types. -/
inductive PieceType where
  | PAWN
  | KNIGHT
  | BISHOP
  | ROOK
  | QUEEN
  | KING
deriving DecidableEq, Repr

/-- The special-kind flag carried by a move. -/
inductive MoveKind where
  | NORMAL
  | PROMOTION
  | ENPASSANT
  | CASTLE
deriving DecidableEq, Repr

/-- Modelled from the spec: an encoded move record {from, to, special-kind
flag, promotion piece type}.  Squares are 0-63; non-promotion moves carry
KNIGHT in the promotion slot, mirroring the zero promotion-piece bits of the
17-bit encoding. -/
structure Move where
  fr : Nat
  dst : Nat
  kind : MoveKind
  promo : PieceType
deriving DecidableEq, Repr

/-- `make_move(from, to)`. -/
def make_move (fr dst : Nat) : Move := ⟨fr, dst, .NORMAL, .KNIGHT⟩

/-- `make_promotion_move(from, to, piece)`. -/
def make_promotion_move (fr dst : Nat) (pc : PieceType) : Move :=
  ⟨fr, dst, .PROMOTION, pc⟩

/-- `make_ep_move(from, to)`. -/
def make_ep_move (fr dst : Nat) : Move := ⟨fr, dst, .ENPASSANT, .KNIGHT⟩

/-- `make_castle_move(from, to)`. -/
def make_castle_move (fr dst : Nat) : Move := ⟨fr, dst, .CASTLE, .KNIGHT⟩

/-- `move_from`. -/
def move_from (m : Move) : Nat := m.fr

/-- `move_to`. -/
def move_to (m : Move) : Nat := m.dst

/-- `move_is_special`: promotion, en passant or castling. -/
def move_is_special (m : Move) : Bool := m.kind ≠ .NORMAL

/-! ## Bitboards

A bitboard is a 64-bit word; embedded as `Nat`, reduced modulo `2^64` where
the C++ unsigned arithmetic wraps. -/

/-- Bitwise complement within the 64-bit board word. -/
def bnot64 (b : Nat) : Nat := b ^^^ (2 ^ 64 - 1)

/-- The set-bit indices of a board word in increasing order: the order in
which the `pop_1st_bit` serialization loops emit squares. -/
def bitList (b : Nat) : List Nat := (List.range 64).filter (fun i => b.testBit i)

/-- File A as a bitboard. -/
def FileABB : Nat := 0x0101010101010101

/-- File H as a bitboard. -/
def FileHBB : Nat := 0x8080808080808080

/-- Rank 2 (squares 8-15). -/
def Rank2BB : Nat := 0xFF00

/-- Rank 3 (squares 16-23). -/
def Rank3BB : Nat := 0xFF0000

/-- Rank 6 (squares 40-47). -/
def Rank6BB : Nat := 0xFF0000000000

/-- Rank 7 (squares 48-55). -/
def Rank7BB : Nat := 0xFF000000000000

/-- `file_bb(s)`: the bitboard of the file containing square s. -/
def file_bb (s : Nat) : Nat := FileABB <<< (s % 8)

/-- `relative_square(c, s)`: s for White, the rank-mirrored square for
Black. -/
def relative_square (c : Color) (s : Nat) : Nat :=
  if c = .WHITE then s else s ^^^ 56

/-! ## The Position collaborator

The board representation is an external collaborator: movegen.cpp only
consumes read-only query primitives from it (spec section 6).  It is embedded
as a structure of abstract query functions with exactly the signatures the
generator calls. -/

/-- The external Position collaborator: each field is one of the read-only
query primitives movegen.cpp consumes.  `piece_on` returns the occupant of a
square, if any; bitboard-valued queries return board words. -/
structure Position where
  side_to_move : Color
  piece_on : Nat → Option (Color × PieceType)
  pieces_of_color : Color → Nat
  empty_squares : Nat
  king_square : Color → Nat
  checkers : Nat
  is_check : Bool
  piece_list : Color → PieceType → List Nat
  attacks_from : PieceType → Nat → Nat
  attacks_from_pawn : Nat → Color → Nat
  pieces : PieceType → Color → Nat
  ep_square : Option Nat
  can_castle_kingside : Color → Bool
  can_castle_queenside : Color → Bool
  initial_kr_square : Color → Nat
  initial_qr_square : Color → Nat
  attackers_to : Nat → Nat
  pinned_pieces : Color → Nat
  pl_move_is_legal : Move → Nat → Bool
  pl_move_is_evasion : Move → Nat → Bool

/-- The global attack-pattern tables of the bitboard module (external to
movegen.cpp): empty-board pseudo-attack rays per square, and the
squares-between table. -/
structure Tables where
  BishopPseudoAttacks : Nat → Nat
  RookPseudoAttacks : Nat → Nat
  squares_between : Nat → Nat → Nat

/-- The move-generation category (local `MoveType` enum). -/
inductive MoveType where
  | CAPTURE
  | NON_CAPTURE
  | CHECK
  | EVASION
deriving DecidableEq, Repr

/-- The two castling scan sides (local `CastlingSide` enum). -/
inductive CastlingSide where
  | KING_SIDE
  | QUEEN_SIDE
deriving DecidableEq, Repr

/-! ## Generators -/

/-- `move_pawns<Delta>`: shift the pawn set one step in the given direction,
wrapping at the 64-bit width as the C++ shifts do. -/
def move_pawns (d : Int) (p : Nat) : Nat :=
  if d = 8 then (p <<< 8) % 2 ^ 64
  else if d = -8 then p >>> 8
  else if d = 9 then (p <<< 9) % 2 ^ 64
  else if d = -7 then p >>> 7
  else if d = 7 then (p <<< 7) % 2 ^ 64
  else if d = -9 then p >>> 9
  else p

/-- `SERIALIZE_MOVES_D(b, d)`: emit one move per set bit, the from-square a
delta away from the to-square. -/
def serializeD (b : Nat) (d : Int) : List Move :=
  (bitList b).map (fun (dst : Nat) => make_move ((dst : Int) + d).toNat dst)

/-- `generate_piece_moves<Piece>` for non-pawn, non-king pieces: for each
square of the piece list, serialize its attacks intersected with the
target. -/
def generate_piece_moves (pos : Position) (pt : PieceType) (us : Color)
    (target : Nat) : List Move :=
  (pos.piece_list us pt).flatMap (fun fr =>
    (bitList (pos.attacks_from pt fr &&& target)).map (make_move fr))

/-- `generate_piece_moves<KING>`: the same serialization specialized to the
single king square. -/
def generate_piece_moves_king (pos : Position) (us : Color)
    (target : Nat) : List Move :=
  (bitList (pos.attacks_from .KING (pos.king_square us) &&& target)).map
    (make_move (pos.king_square us))

/-- `generate_pawn_captures<Type, Delta>`: one diagonal of pawn captures,
masking out the wrap-around file. -/
def generate_pawn_captures (delta : Int) (pawns target : Nat) : List Move :=
  let tFileABB := if delta = 9 ∨ delta = -7 then FileABB else FileHBB
  serializeD (move_pawns delta pawns &&& target &&& bnot64 tFileABB) (-delta)

/-- The board word of reachable promotion destinations scanned by
`generate_promotions`: the seventh-rank pawns shifted along the delta,
intersected with the target, masking the wrap-around file on the capture
deltas. -/
def promotionDestinations (delta : Int) (pawnsOn7 target : Nat) : Nat :=
  let tFileABB := if delta = 9 ∨ delta = -7 then FileABB else FileHBB
  let b0 := move_pawns delta pawnsOn7 &&& target
  if delta ≠ 8 ∧ delta ≠ -8 then b0 &&& bnot64 tFileABB else b0

/-- `generate_promotions<Us, Type, Delta>`: per reachable promotion square,
emit a queen promotion for capture/evasion categories, the three
underpromotions for non-capture/evasion categories, and for the check
category a knight promotion exactly when the promoted knight attacks the
enemy king. -/
def generate_promotions (us : Color) (ty : MoveType) (delta : Int)
    (pos : Position) (pawnsOn7 target : Nat) : List Move :=
  (bitList (promotionDestinations delta pawnsOn7 target)).flatMap (fun dst =>
    (if ty = .CAPTURE ∨ ty = .EVASION then
      [make_promotion_move ((dst : Int) - delta).toNat dst .QUEEN]
    else [])
    ++ (if ty = .NON_CAPTURE ∨ ty = .EVASION then
      [make_promotion_move ((dst : Int) - delta).toNat dst .ROOK,
       make_promotion_move ((dst : Int) - delta).toNat dst .BISHOP,
       make_promotion_move ((dst : Int) - delta).toNat dst .KNIGHT]
    else [])
    ++ (if ty = .CHECK ∧
          (pos.attacks_from .KNIGHT dst).testBit
            (pos.king_square (opposite_color us)) = true then
      [make_promotion_move ((dst : Int) - delta).toNat dst .KNIGHT]
    else []))

/-- `generate_pawn_moves<Us, Type>`: promotions, then diagonal captures,
then single/double pushes (restricted to checking pushes in the check
category), then en passant captures, exactly in the emission order of the
source. -/
def generate_pawn_moves (us : Color) (ty : MoveType) (pos : Position)
    (target : Nat) (ksq : Nat) : List Move :=
  let them := opposite_color us
  let tRank7BB := if us = .WHITE then Rank7BB else Rank2BB
  let tRank3BB := if us = .WHITE then Rank3BB else Rank6BB
  let tDELTA_N : Int := if us = .WHITE then 8 else -8
  let tDELTA_NE : Int := if us = .WHITE then 9 else -7
  let tDELTA_NW : Int := if us = .WHITE then 7 else -9
  let pawns0 := pos.pieces .PAWN us
  let pawnsOn7 := pawns0 &&& tRank7BB
  let enemyPieces0 := if ty = .CAPTURE then target else pos.pieces_of_color them
  let emptySquares0 := if ty = .NON_CAPTURE then target else pos.empty_squares
  let pawnPushes := move_pawns tDELTA_N (pawns0 &&& bnot64 tRank7BB) &&& emptySquares0
  let emptySquares1 := if ty = .EVASION then emptySquares0 &&& target else emptySquares0
  let enemyPieces1 := if ty = .EVASION then enemyPieces0 &&& target else enemyPieces0
  let pawns1 := if pawnsOn7 ≠ 0 then pawns0 &&& bnot64 tRank7BB else pawns0
  let promoList :=
    if pawnsOn7 ≠ 0 then
      let emptySquaresP := if ty = .CAPTURE then pos.empty_squares else emptySquares1
      generate_promotions us ty tDELTA_NE pos pawnsOn7 enemyPieces1
      ++ generate_promotions us ty tDELTA_NW pos pawnsOn7 enemyPieces1
      ++ generate_promotions us ty tDELTA_N pos pawnsOn7 emptySquaresP
    else []
  let capList :=
    if ty = .CAPTURE ∨ ty = .EVASION then
      generate_pawn_captures tDELTA_NE pawns1 enemyPieces1
      ++ generate_pawn_captures tDELTA_NW pawns1 enemyPieces1
    else []
  let pushList :=
    if ty ≠ .CAPTURE then
      let b1 := pawnPushes &&& emptySquares1
      let b2 := move_pawns tDELTA_N (pawnPushes &&& tRank3BB) &&& emptySquares1
      let bb :=
        if ty = .CHECK then
          let b1c := b1 &&& pos.attacks_from_pawn ksq them
          let b2c := b2 &&& pos.attacks_from_pawn ksq them
          if pawns1 &&& target ≠ 0 then
            let dc1 := move_pawns tDELTA_N
              (pawns1 &&& target &&& bnot64 (file_bb ksq)) &&& emptySquares1
            let dc2 := move_pawns tDELTA_N (dc1 &&& tRank3BB) &&& emptySquares1
            (b1c ||| dc1, b2c ||| dc2)
          else (b1c, b2c)
        else (b1, b2)
      serializeD bb.1 (-tDELTA_N) ++ serializeD bb.2 (-tDELTA_N - tDELTA_N)
    else []
  let epList :=
    if ty = .CAPTURE ∨ ty = .EVASION then
      match pos.ep_square with
      | some ep =>
        if ty = .EVASION ∧ target.testBit ((ep : Int) - tDELTA_N).toNat = false
        then []
        else (bitList (pawns1 &&& pos.attacks_from_pawn ep them)).map
          (fun fr => make_ep_move fr ep)
      | none => []
    else []
  promoList ++ capList ++ pushList ++ epList

/-- The closed integer interval [a, b] as a list of squares. -/
def rangeIncl (a b : Nat) : List Nat := List.range' a (b + 1 - a)

/-- The king-path scan of `generate_castle_moves`: some square from the
lower to the higher of the king's current and target squares (inclusive)
is occupied by a piece other than the castling king or rook, or is attacked
by an opponent piece. -/
def castleKingPathIllegal (pos : Position) (ksq rsq s1 : Nat) : Bool :=
  (rangeIncl (min ksq s1) (max ksq s1)).any (fun s =>
    decide ((s ≠ ksq ∧ s ≠ rsq ∧ (pos.piece_on s).isSome = true) ∨
      pos.attackers_to s &&& pos.pieces_of_color (opposite_color pos.side_to_move) ≠ 0))

/-- The rook-path scan of `generate_castle_moves`: some square between the
rook's current and target squares is occupied, the king and rook squares
themselves excepted. -/
def castleRookPathIllegal (pos : Position) (ksq rsq s2 : Nat) : Bool :=
  (rangeIncl (min rsq s2) (max rsq s2)).any (fun s =>
    decide (s ≠ ksq ∧ s ≠ rsq ∧ (pos.piece_on s).isSome = true))

/-- The Chess960 corner special case of `generate_castle_moves`: a queenside
rook on file B with an opposing rook or queen in the corner. -/
def castleCornerIllegal (side : CastlingSide) (pos : Position) (rsq : Nat) :
    Bool :=
  decide (side = .QUEEN_SIDE ∧ rsq % 8 = 1 ∧
    (pos.piece_on (relative_square pos.side_to_move 0) =
       some (opposite_color pos.side_to_move, .ROOK) ∨
     pos.piece_on (relative_square pos.side_to_move 0) =
       some (opposite_color pos.side_to_move, .QUEEN)))

/-- `generate_castle_moves<Side>`: emit the single castling move of the
scanned side when the right is available and the transit scans find no
occupied or attacked square, with the Chess960 corner-rook special case. -/
def generate_castle_moves (side : CastlingSide) (pos : Position) : List Move :=
  let us := pos.side_to_move
  if (if side = .KING_SIDE then pos.can_castle_kingside us
      else pos.can_castle_queenside us) = true then
    let ksq := pos.king_square us
    let rsq := if side = .KING_SIDE then pos.initial_kr_square us
               else pos.initial_qr_square us
    let s1 := relative_square us (if side = .KING_SIDE then 6 else 2)
    let s2 := relative_square us (if side = .KING_SIDE then 5 else 3)
    if castleKingPathIllegal pos ksq rsq s1 || castleRookPathIllegal pos ksq rsq s2
        || castleCornerIllegal side pos rsq then []
    else [make_castle_move ksq rsq]
  else []

/-- `generate_non_evasions`: pawn captures, pawn non-captures, then the
piece and king moves over the union target, then both castling scans. -/
def generate_non_evasions (pos : Position) : List Move :=
  let us := pos.side_to_move
  let target0 := pos.pieces_of_color (opposite_color us)
  let target := target0 ||| pos.empty_squares
  generate_pawn_moves us .CAPTURE pos target0 64
  ++ generate_pawn_moves us .NON_CAPTURE pos pos.empty_squares 64
  ++ generate_piece_moves pos .KNIGHT us target
  ++ generate_piece_moves pos .BISHOP us target
  ++ generate_piece_moves pos .ROOK us target
  ++ generate_piece_moves pos .QUEEN us target
  ++ generate_piece_moves_king pos us target
  ++ generate_castle_moves .KING_SIDE pos
  ++ generate_castle_moves .QUEEN_SIDE pos

/-- The contribution of one checker square to the accumulated slider-attack
mask of `generate_evasions`: the checker's empty-board pseudo-attack ray, and
for a queen the union of both ray families chosen by rook-line adjacency to
the king. -/
def sliderContribution (T : Tables) (pos : Position) (ksq checksq : Nat) :
    Nat :=
  match (pos.piece_on checksq).map Prod.snd with
  | some .BISHOP => T.BishopPseudoAttacks checksq
  | some .ROOK => T.RookPseudoAttacks checksq
  | some .QUEEN =>
      if (T.RookPseudoAttacks checksq).testBit ksq = true then
        T.RookPseudoAttacks checksq ||| pos.attacks_from .BISHOP checksq
      else
        T.BishopPseudoAttacks checksq ||| pos.attacks_from .ROOK checksq
  | _ => 0

/-- The slider-attack mask accumulated over all checkers by the evasion
generator's first loop. -/
def evasionSliderAttacks (T : Tables) (pos : Position) : Nat :=
  (bitList pos.checkers).foldl
    (fun acc sq =>
      acc ||| sliderContribution T pos (pos.king_square pos.side_to_move) sq)
    0

/-- The king moves emitted first by `generate_evasions`: the king's attacks
minus own pieces minus the accumulated slider-attack squares. -/
def evasionKingMoves (T : Tables) (pos : Position) : List Move :=
  let us := pos.side_to_move
  let ksq := pos.king_square us
  (bitList (pos.attacks_from .KING ksq &&& bnot64 (pos.pieces_of_color us)
    &&& bnot64 (evasionSliderAttacks T pos))).map (make_move ksq)

/-- `generate_evasions`: king moves first; under double check return them
alone, otherwise add blocking and capturing moves restricted to the
between-squares-plus-checker target. -/
def generate_evasions (T : Tables) (pos : Position) : List Move :=
  let us := pos.side_to_move
  let ksq := pos.king_square us
  let kingList := evasionKingMoves T pos
  if 1 < (bitList pos.checkers).length then kingList
  else
    let checksq := (bitList pos.checkers).getLastD 64
    let target := T.squares_between checksq ksq ||| pos.checkers
    kingList
    ++ generate_pawn_moves us .EVASION pos target 64
    ++ generate_piece_moves pos .KNIGHT us target
    ++ generate_piece_moves pos .BISHOP us target
    ++ generate_piece_moves pos .ROOK us target
    ++ generate_piece_moves pos .QUEEN us target

/-- The in-place partition loop of `generate_moves`: keep a legal head,
otherwise overwrite it with the last unprocessed entry (shrinking the
logical end) and retest the same slot. -/
def removeIllegal (legal : Move → Bool) : List Move → List Move
  | [] => []
  | m :: rest =>
    if legal m then m :: removeIllegal legal rest
    else
      if hr : rest = [] then []
      else removeIllegal legal (rest.getLast hr :: rest.dropLast)
termination_by l => l.length
decreasing_by
  · simp
  · have h1 : rest.dropLast.length = rest.length - 1 := List.length_dropLast rest
    have h2 : 0 < rest.length := List.length_pos.mpr hr
    simp
    omega

/-- `generate_moves(pos, mlist, pseudoLegal)`: dispatch to the evasion or
non-evasion generator by check status; if not pseudo-legal-only, run the
in-place legality partition with the side-to-move's pinned mask. -/
def generate_moves (T : Tables) (pos : Position) (pseudoLegal : Bool) :
    List Move :=
  let pinned := pos.pinned_pieces pos.side_to_move
  let last := if pos.is_check then generate_evasions T pos
              else generate_non_evasions pos
  if pseudoLegal then last
  else removeIllegal (fun m => pos.pl_move_is_legal m pinned) last

/-- The slow `move_is_legal(pos, m)`: regenerate the full pseudo-legal list,
search for the move, and re-apply the legality predicate. -/
def move_is_legal_slow (T : Tables) (pos : Position) (m : Move) : Bool :=
  if (generate_moves T pos true).contains m then
    pos.pl_move_is_legal m (pos.pinned_pieces pos.side_to_move)
  else false

/-- The fast `move_is_legal(pos, m, pinned)`: defer special moves to the
slow path, reject moves whose origin is not a friendly piece or whose
destination is friendly, pattern-match pawn geometry or attack membership,
then apply the evasion or legality predicate. -/
def move_is_legal_fast (T : Tables) (pos : Position) (m : Move)
    (pinned : Nat) : Bool :=
  let us := pos.side_to_move
  let them := opposite_color us
  let fr := move_from m
  let dst := move_to m
  let finalCheck : Bool :=
    if pos.is_check then pos.pl_move_is_evasion m pinned
    else pos.pl_move_is_legal m pinned
  if move_is_special m then move_is_legal_slow T pos m
  else
    match pos.piece_on fr with
    | none => false
    | some (c, pt) =>
      if c ≠ us then false
      else if (pos.piece_on dst).map Prod.fst = some us then false
      else if pt = .PAWN then
        let direction : Int := (dst : Int) - (fr : Int)
        if ¬ ((us = .WHITE) ↔ 0 < direction) then false
        else if dst / 8 = 7 ∨ dst / 8 = 0 then false
        else if direction = 7 ∨ direction = 9 ∨ direction = -7 ∨
            direction = -9 then
          if (pos.piece_on dst).map Prod.fst ≠ some them then false
          else finalCheck
        else if direction = 8 ∨ direction = -8 then
          if (pos.piece_on dst).isSome then false else finalCheck
        else if direction = 16 then
          if dst / 8 ≠ 3 ∨ (pos.piece_on dst).isSome = true ∨
              (pos.piece_on (fr + 8)).isSome = true then false
          else finalCheck
        else if direction = -16 then
          if dst / 8 ≠ 4 ∨ (pos.piece_on dst).isSome = true ∨
              (pos.piece_on (fr - 8)).isSome = true then false
          else finalCheck
        else false
      else
        if (pos.attacks_from pt fr).testBit dst = true then finalCheck
        else false

/-! ## Board geometry

Modelled from the spec: the attack-pattern lookup is an external primitive
(spec sections 1 and 6); the glossary fixes the board as 64 squares with
files and ranks.  These definitions give the standard knight-attack and
queen-line geometry used to state consistency hypotheses about the abstract
attack oracle. -/

/-- File distance between two squares. -/
def fileDist (s t : Nat) : Nat := max (s % 8) (t % 8) - min (s % 8) (t % 8)

/-- Rank distance between two squares. -/
def rankDist (s t : Nat) : Nat := max (s / 8) (t / 8) - min (s / 8) (t / 8)

/-- Modelled from the spec: a knight on s attacks t (the occupancy-free
knight attack pattern of the external bitboard module). -/
def knightAttacksB (s t : Nat) : Bool :=
  decide (s < 64 ∧ t < 64 ∧
    ((fileDist s t = 1 ∧ rankDist s t = 2) ∨
     (fileDist s t = 2 ∧ rankDist s t = 1)))

/-- Modelled from the spec: t lies on a queen line through s (same file,
same rank, or same diagonal) — every square a queen on s can attack under
any occupancy lies on such a line. -/
def queenLinesB (s t : Nat) : Bool :=
  decide (s < 64 ∧ t < 64 ∧ s ≠ t ∧
    (fileDist s t = 0 ∨ rankDist s t = 0 ∨ fileDist s t = rankDist s t))

/-- Build a board word from a square predicate. -/
def boardOf (p : Nat → Bool) : Nat :=
  (List.range 64).foldr (fun i acc => acc ||| (if p i then 1 <<< i else 0)) 0

/-! ## Concrete instances for evaluation -/

/-- A trivial table set for concrete evaluations. -/
def tablesZero : Tables := ⟨fun _ => 0, fun _ => 0, fun _ _ => 0⟩

/-- A quiet concrete position: empty board, no check, no rights. -/
def posQuiet : Position :=
  { side_to_move := .WHITE
    piece_on := fun _ => none
    pieces_of_color := fun _ => 0
    empty_squares := 0
    king_square := fun _ => 4
    checkers := 0
    is_check := false
    piece_list := fun _ _ => []
    attacks_from := fun _ _ => 0
    attacks_from_pawn := fun _ _ => 0
    pieces := fun _ _ => 0
    ep_square := none
    can_castle_kingside := fun _ => false
    can_castle_queenside := fun _ => false
    initial_kr_square := fun _ => 7
    initial_qr_square := fun _ => 0
    attackers_to := fun _ => 0
    pinned_pieces := fun _ => 0
    pl_move_is_legal := fun _ _ => true
    pl_move_is_evasion := fun _ _ => true }

/-- A concrete double-check position: checkers on squares 0 and 1. -/
def posDouble : Position :=
  { posQuiet with
    checkers := 3
    is_check := true
    king_square := fun _ => 9
    attacks_from := fun pt s =>
      if pt = .KING ∧ s = 9 then 0x070507 else 0 }

/-- A concrete single-rook-check position: a black rook on square 0 checks
the white king on square 8 along the a-file. -/
def posRookCheck : Position :=
  { posQuiet with
    checkers := 1
    is_check := true
    king_square := fun _ => 8
    pieces_of_color := fun c => if c = .WHITE then 1 <<< 8 else 1
    piece_on := fun s =>
      if s = 0 then some (.BLACK, .ROOK)
      else if s = 8 then some (.WHITE, .KING) else none
    attacks_from := fun pt s =>
      if pt = .KING ∧ s = 8 then 0x030203 else 0 }

/-- Tables giving the rook on square 0 its a-file and first-rank rays. -/
def tablesRook : Tables :=
  ⟨fun _ => 0, fun s => if s = 0 then FileABB ||| 0xFE else 0, fun _ _ => 0⟩

/-- A concrete castling position: White may castle kingside, with a black
attacker bearing on transit square 5. -/
def posCastle : Position :=
  { posQuiet with
    can_castle_kingside := fun c => c = .WHITE
    king_square := fun _ => 4
    initial_kr_square := fun _ => 7
    attackers_to := fun s => if s = 5 then 1 <<< 60 else 0
    pieces_of_color := fun c => if c = .BLACK then 1 <<< 60 else 0 }

/-- A concrete position for the check-category promotion scan: a white pawn
on square 52 promotes on square 60; knight and queen attack oracles follow
the board geometry. -/
def posPromo : Position :=
  { posQuiet with
    side_to_move := .WHITE
    king_square := fun c => if c = .BLACK then 45 else 4
    pieces := fun pt c =>
      if pt = .PAWN ∧ c = .WHITE then 1 <<< 52 else 0
    empty_squares := bnot64 ((1 <<< 52) ||| (1 <<< 45) ||| (1 <<< 4))
    attacks_from := fun pt s =>
      if pt = .KNIGHT then boardOf (knightAttacksB s)
      else if pt = .QUEEN then boardOf (queenLinesB s)
      else 0 }

/-! ## Theorems -/

/-! ### Bit-level helper lemmas -/

theorem mem_bitList {b i : Nat} :
    i ∈ bitList b ↔ i < 64 ∧ b.testBit i = true := by
  simp [bitList, List.mem_filter]

theorem bitList_nodup (b : Nat) : (bitList b).Nodup :=
  (List.nodup_range 64).filter _

theorem testBit_bnot64 {s i : Nat} (h : i < 64) :
    (bnot64 s).testBit i = ! s.testBit i := by
  rw [bnot64, Nat.testBit_xor, Nat.testBit_two_pow_sub_one]
  simp [h]

/-! ### Packing lemmas -/

theorem mask17_eq_mod (m : Nat) : m &&& 0x1FFFF = m % 2 ^ 17 := by
  have h : (0x1FFFF : Nat) = 2 ^ 17 - 1 := by norm_num
  rw [h, Nat.and_pow_two_sub_one_eq_mod]

theorem packData_and_mask (m t g : Nat) :
    packData m t g &&& 0x1FFFF = m % 2 ^ 17 := by
  have h3 : (0x1FFFF : Nat) = 2 ^ 17 - 1 := by norm_num
  rw [packData, mask17_eq_mod, h3]
  apply Nat.eq_of_testBit_eq
  intro i
  simp only [Nat.testBit_and, Nat.testBit_mod_two_pow, Nat.testBit_or,
    Nat.testBit_shiftLeft, Nat.testBit_two_pow_sub_one]
  by_cases h : i < 17
  · have h32 : i < 32 := by omega
    have h21 : ¬ (21 ≤ i) := by omega
    have h23 : ¬ (23 ≤ i) := by omega
    simp [h, h32, h21, h23]
  · simp [h]

theorem packData_type (m t g : Nat) :
    (packData m t g >>> 21) &&& 3 = t % 4 := by
  have h3 : (3 : Nat) = 2 ^ 2 - 1 := by norm_num
  have h4 : (4 : Nat) = 2 ^ 2 := by norm_num
  rw [packData, mask17_eq_mod, h3, h4]
  apply Nat.eq_of_testBit_eq
  intro i
  simp only [Nat.testBit_and, Nat.testBit_shiftRight, Nat.testBit_mod_two_pow,
    Nat.testBit_or, Nat.testBit_shiftLeft, Nat.testBit_two_pow_sub_one]
  by_cases h : i < 2
  · have h32 : 21 + i < 32 := by omega
    have h17 : ¬ (21 + i < 17) := by omega
    have h21 : 21 ≤ 21 + i := by omega
    have h23 : ¬ (23 ≤ 21 + i) := by omega
    have hsub : 21 + i - 21 = i := by omega
    simp [h, h32, h17, h21, h23, hsub]
  · simp [h]

theorem packData_generation (m t g : Nat) (ht : t < 4) :
    packData m t g >>> 23 = g % 2 ^ 9 := by
  rw [packData, mask17_eq_mod]
  apply Nat.eq_of_testBit_eq
  intro i
  simp only [Nat.testBit_shiftRight, Nat.testBit_mod_two_pow, Nat.testBit_or,
    Nat.testBit_shiftLeft]
  by_cases h : i < 9
  · have h32 : 23 + i < 32 := by omega
    have h17 : ¬ (23 + i < 17) := by omega
    have h21 : 21 ≤ 23 + i := by omega
    have h23 : 23 ≤ 23 + i := by omega
    have hsub : 23 + i - 23 = i := by omega
    have htb : t.testBit (23 + i - 21) = false := by
      apply Nat.testBit_lt_two_pow
      calc t < 4 := ht
        _ ≤ 2 ^ (23 + i - 21) := by
            have : 2 ≤ 23 + i - 21 := by omega
            calc (4 : Nat) = 2 ^ 2 := by norm_num
              _ ≤ 2 ^ (23 + i - 21) := Nat.pow_le_pow_right (by omega) this
    simp [h, h32, h17, h21, h23, hsub, htb]
  · have h32 : ¬ (23 + i < 32) := by omega
    simp [h, h32]

theorem TTEntry.move_lt (e : TTEntry) : e.move < 2 ^ 17 := by
  rw [TTEntry.move, mask17_eq_mod]
  exact Nat.mod_lt _ (by norm_num)

theorem TTEntry.type_lt (e : TTEntry) : e.type < 4 := by
  have h3 : (3 : Nat) = 2 ^ 2 - 1 := by norm_num
  rw [TTEntry.type, h3, Nat.and_pow_two_sub_one_eq_mod]
  exact Nat.mod_lt _ (by norm_num)

theorem toInt16_eq_self (v : Int) (h1 : -(2 ^ 15) ≤ v) (h2 : v < 2 ^ 15) :
    toInt16 v = v := by
  rw [toInt16]
  omega

/-! ### Claims about the entry codec -/

/-- C2 counterexample: the claim asserts that for out-of-range arguments each
accessor returns the truncation of its own written value to the field width.
With bound-type argument 4 (outside its 2-bit field) and generation argument
0, the generation accessor returns 1, not the truncation 0 of the written
generation: the bound-type bits spill into the generation sub-field. -/
theorem claim_C2_counterexample :
    ¬ (TTEntry.generation (TTEntry.save 0 0 4 0 0 0 0 0) = 0) := by decide

/-- C2 (amended): provided the bound-type argument fits its 2-bit field,
save followed by each accessor returns the written value truncated to the
field width (key to 32 bits, move to 17 bits, bound-type to 2 bits,
generation to its 9-bit sub-field, and the four value fields to signed
16-bit range); in particular, arguments that fit their fields round-trip
exactly. -/
theorem claim_C2_roundtrip (k : Nat) (v : Int) (t : Nat) (d : Int)
    (m : Nat) (g : Nat) (statV : Int) (kd : Int) (ht : t < 4) :
    TTEntry.key (TTEntry.save k v t d m g statV kd) = k % 2 ^ 32 ∧
    TTEntry.move (TTEntry.save k v t d m g statV kd) = m % 2 ^ 17 ∧
    TTEntry.type (TTEntry.save k v t d m g statV kd) = t ∧
    TTEntry.generation (TTEntry.save k v t d m g statV kd) = g % 2 ^ 9 ∧
    TTEntry.value (TTEntry.save k v t d m g statV kd) = toInt16 v ∧
    TTEntry.depth (TTEntry.save k v t d m g statV kd) = toInt16 d ∧
    TTEntry.static_value (TTEntry.save k v t d m g statV kd) = toInt16 statV ∧
    TTEntry.static_value_margin (TTEntry.save k v t d m g statV kd) =
      toInt16 kd := by
  refine ⟨rfl, ?_, ?_, ?_, rfl, rfl, rfl, rfl⟩
  · exact packData_and_mask m t g
  · rw [TTEntry.type]
    show (packData m t g >>> 21) &&& 3 = t
    rw [packData_type]
    exact Nat.mod_eq_of_lt ht
  · exact packData_generation m t g ht

/-- C2 witness: the round-trip theorem applied at a concrete in-range
argument tuple. -/
theorem claim_C2_roundtrip_witness :
    (2 : Nat) < 4 ∧
    (TTEntry.key (TTEntry.save 7 100 2 12 33 5 (-40) 9) = 7 % 2 ^ 32 ∧
     TTEntry.move (TTEntry.save 7 100 2 12 33 5 (-40) 9) = 33 % 2 ^ 17 ∧
     TTEntry.type (TTEntry.save 7 100 2 12 33 5 (-40) 9) = 2 ∧
     TTEntry.generation (TTEntry.save 7 100 2 12 33 5 (-40) 9) = 5 % 2 ^ 9 ∧
     TTEntry.value (TTEntry.save 7 100 2 12 33 5 (-40) 9) = toInt16 100 ∧
     TTEntry.depth (TTEntry.save 7 100 2 12 33 5 (-40) 9) = toInt16 12 ∧
     TTEntry.static_value (TTEntry.save 7 100 2 12 33 5 (-40) 9) =
       toInt16 (-40) ∧
     TTEntry.static_value_margin (TTEntry.save 7 100 2 12 33 5 (-40) 9) =
       toInt16 9) :=
  ⟨by decide, claim_C2_roundtrip 7 100 2 12 33 5 (-40) 9 (by decide)⟩

/-- C6 counterexample: the claim asserts the generation sub-field occupies
all 13 bits left after the 17-bit move and 2-bit bound-type.  Generation
value 512 fits in 13 bits, but save followed by generation() returns 0, not
512: the sub-field is only 9 bits wide (bits 23-31, bits 17-20 unused). -/
theorem claim_C6_counterexample :
    ¬ (TTEntry.generation (TTEntry.save 0 0 0 0 0 512 0 0) = 512) := by decide

/-- C6 (amended): the generation sub-field of the packed data word occupies
bits 23-31, i.e. 9 bits (bits 17-20 are unused, between the 17-bit move and
the 2-bit bound-type at bits 21-22): for every generation value g
representable in 9 bits, and bound-type within its field, save followed by
generation() returns g. -/
theorem claim_C6_generation (k : Nat) (v : Int) (t : Nat) (d : Int)
    (m : Nat) (g : Nat) (statV : Int) (kd : Int)
    (ht : t < 4) (hg : g < 2 ^ 9) :
    TTEntry.generation (TTEntry.save k v t d m g statV kd) = g := by
  show packData m t g >>> 23 = g
  rw [packData_generation m t g ht]
  exact Nat.mod_eq_of_lt hg

/-- C6 witness: the amended generation round-trip at a concrete input. -/
theorem claim_C6_generation_witness :
    ((1 : Nat) < 4 ∧ (300 : Nat) < 2 ^ 9) ∧
    TTEntry.generation (TTEntry.save 5 0 1 0 99 300 0 0) = 300 :=
  ⟨⟨by decide, by decide⟩,
   claim_C6_generation 5 0 1 0 99 300 0 0 (by decide) (by decide)⟩

/-- C8: set_generation changes only the generation sub-field of an entry
previously written by save: the decoded move and bound-type of the packed
word and the key, value, depth, static-value and static-value-margin fields
read the same before and after, while generation() afterwards returns the
new value (within the 9-bit sub-field width). -/
theorem claim_C8_set_generation (k : Nat) (v : Int) (t : Nat) (d : Int)
    (m : Nat) (g : Nat) (statV : Int) (kd : Int) (g2 : Nat)
    (hg2 : g2 < 2 ^ 9) :
    TTEntry.move
        (TTEntry.set_generation g2 (TTEntry.save k v t d m g statV kd)) =
      TTEntry.move (TTEntry.save k v t d m g statV kd) ∧
    TTEntry.type
        (TTEntry.set_generation g2 (TTEntry.save k v t d m g statV kd)) =
      TTEntry.type (TTEntry.save k v t d m g statV kd) ∧
    TTEntry.key
        (TTEntry.set_generation g2 (TTEntry.save k v t d m g statV kd)) =
      TTEntry.key (TTEntry.save k v t d m g statV kd) ∧
    TTEntry.value
        (TTEntry.set_generation g2 (TTEntry.save k v t d m g statV kd)) =
      TTEntry.value (TTEntry.save k v t d m g statV kd) ∧
    TTEntry.depth
        (TTEntry.set_generation g2 (TTEntry.save k v t d m g statV kd)) =
      TTEntry.depth (TTEntry.save k v t d m g statV kd) ∧
    TTEntry.static_value
        (TTEntry.set_generation g2 (TTEntry.save k v t d m g statV kd)) =
      TTEntry.static_value (TTEntry.save k v t d m g statV kd) ∧
    TTEntry.static_value_margin
        (TTEntry.set_generation g2 (TTEntry.save k v t d m g statV kd)) =
      TTEntry.static_value_margin (TTEntry.save k v t d m g statV kd) ∧
    TTEntry.generation
        (TTEntry.set_generation g2 (TTEntry.save k v t d m g statV kd)) =
      g2 := by
  set e := TTEntry.save k v t d m g statV kd with he
  have hdata : (TTEntry.set_generation g2 e).data =
      packData e.move e.type g2 := by
    show (e.move ||| e.type <<< 21 ||| g2 <<< 23) % 2 ^ 32 =
      ((e.move &&& 0x1FFFF) ||| e.type <<< 21 ||| g2 <<< 23) % 2 ^ 32
    have hm : e.move &&& 0x1FFFF = e.move := by
      rw [mask17_eq_mod]
      exact Nat.mod_eq_of_lt (by simpa [mask17_eq_mod] using e.move_lt)
    rw [hm]
  refine ⟨?_, ?_, rfl, rfl, rfl, rfl, rfl, ?_⟩
  · show (TTEntry.set_generation g2 e).data &&& 0x1FFFF = e.move
    rw [hdata, packData_and_mask]
    exact Nat.mod_eq_of_lt e.move_lt
  · show ((TTEntry.set_generation g2 e).data >>> 21) &&& 3 = e.type
    rw [hdata, packData_type]
    exact Nat.mod_eq_of_lt e.type_lt
  · show (TTEntry.set_generation g2 e).data >>> 23 = g2
    rw [hdata, packData_generation _ _ _ e.type_lt]
    exact Nat.mod_eq_of_lt hg2

/-- C8 witness: the frame property of set_generation at a concrete entry. -/
theorem claim_C8_set_generation_witness :
    (7 : Nat) < 2 ^ 9 ∧
    (TTEntry.move
        (TTEntry.set_generation 7 (TTEntry.save 1 2 3 4 5 6 8 9)) =
      TTEntry.move (TTEntry.save 1 2 3 4 5 6 8 9) ∧
    TTEntry.type
        (TTEntry.set_generation 7 (TTEntry.save 1 2 3 4 5 6 8 9)) =
      TTEntry.type (TTEntry.save 1 2 3 4 5 6 8 9) ∧
    TTEntry.key
        (TTEntry.set_generation 7 (TTEntry.save 1 2 3 4 5 6 8 9)) =
      TTEntry.key (TTEntry.save 1 2 3 4 5 6 8 9) ∧
    TTEntry.value
        (TTEntry.set_generation 7 (TTEntry.save 1 2 3 4 5 6 8 9)) =
      TTEntry.value (TTEntry.save 1 2 3 4 5 6 8 9) ∧
    TTEntry.depth
        (TTEntry.set_generation 7 (TTEntry.save 1 2 3 4 5 6 8 9)) =
      TTEntry.depth (TTEntry.save 1 2 3 4 5 6 8 9) ∧
    TTEntry.static_value
        (TTEntry.set_generation 7 (TTEntry.save 1 2 3 4 5 6 8 9)) =
      TTEntry.static_value (TTEntry.save 1 2 3 4 5 6 8 9) ∧
    TTEntry.static_value_margin
        (TTEntry.set_generation 7 (TTEntry.save 1 2 3 4 5 6 8 9)) =
      TTEntry.static_value_margin (TTEntry.save 1 2 3 4 5 6 8 9) ∧
    TTEntry.generation
        (TTEntry.set_generation 7 (TTEntry.save 1 2 3 4 5 6 8 9)) = 7) :=
  ⟨by decide, claim_C8_set_generation 1 2 3 4 5 6 8 9 7 (by decide)⟩

/-! ### The legality partition of generate_moves (claim C1) -/

theorem removeIllegal_nil (legal : Move → Bool) :
    removeIllegal legal [] = [] := by
  rw [removeIllegal]

theorem removeIllegal_cons_pos (legal : Move → Bool) (m : Move)
    (rest : List Move) (h : legal m = true) :
    removeIllegal legal (m :: rest) = m :: removeIllegal legal rest := by
  rw [removeIllegal]
  simp [h]

theorem removeIllegal_cons_neg_nil (legal : Move → Bool) (m : Move)
    (h : legal m = false) :
    removeIllegal legal [m] = [] := by
  rw [removeIllegal]
  simp [h]

theorem removeIllegal_cons_neg (legal : Move → Bool) (m : Move)
    (rest : List Move) (h : legal m = false) (hr : rest ≠ []) :
    removeIllegal legal (m :: rest) =
      removeIllegal legal (rest.getLast hr :: rest.dropLast) := by
  rw [removeIllegal]
  simp [h, hr]

theorem removeIllegal_perm_aux (legal : Move → Bool) :
    ∀ (n : Nat) (l : List Move), l.length ≤ n →
      List.Perm (removeIllegal legal l) (l.filter legal) := by
  intro n
  induction n with
  | zero =>
    intro l hl
    have hnil : l = [] := List.eq_nil_of_length_eq_zero (Nat.le_zero.mp hl)
    subst hnil
    simp [removeIllegal_nil]
  | succ n ih =>
    intro l hl
    cases l with
    | nil => simp [removeIllegal_nil]
    | cons m rest =>
      by_cases hm : legal m = true
      · rw [removeIllegal_cons_pos legal m rest hm]
        have h1 := ih rest (by simpa using hl)
        simpa [List.filter_cons, hm] using h1.cons m
      · have hm' : legal m = false := by simpa using hm
        by_cases hr : rest = []
        · subst hr
          rw [removeIllegal_cons_neg_nil legal m hm']
          simp [List.filter_cons, hm']
        · rw [removeIllegal_cons_neg legal m rest hm' hr]
          have hlen : (rest.getLast hr :: rest.dropLast).length ≤ n := by
            have h1 : rest.dropLast.length = rest.length - 1 :=
              List.length_dropLast rest
            have h2 : 0 < rest.length := List.length_pos.mpr hr
            simp at hl ⊢
            omega
          have h1 := ih _ hlen
          have hperm : List.Perm (rest.getLast hr :: rest.dropLast) rest := by
            conv_rhs => rw [← List.dropLast_append_getLast hr]
            exact (List.perm_append_singleton _ _).symm
          have hfe : (m :: rest).filter legal = rest.filter legal := by
            simp [List.filter_cons, hm']
          rw [hfe]
          exact h1.trans (hperm.filter legal)

theorem removeIllegal_perm (legal : Move → Bool) (l : List Move) :
    List.Perm (removeIllegal legal l) (l.filter legal) :=
  removeIllegal_perm_aux legal l.length l le_rfl

/-- C1: for a position not in check, the move list returned by
generate_moves with pseudoLegal = false is, as a set, exactly the subset of
the pseudo-legal list produced by the non-evasion generators that satisfies
the legality predicate with the side-to-move's pinned mask: every
pseudo-legal move failing the predicate is excluded, every one passing it is
retained, and no move outside the pseudo-legal list appears. -/
theorem claim_C1_legal_partition (T : Tables) (pos : Position)
    (h : pos.is_check = false) :
    ∀ m : Move, m ∈ generate_moves T pos false ↔
      (m ∈ generate_non_evasions pos ∧
       pos.pl_move_is_legal m (pos.pinned_pieces pos.side_to_move) = true) := by
  intro m
  have hgen : generate_moves T pos false =
      removeIllegal
        (fun mv => pos.pl_move_is_legal mv (pos.pinned_pieces pos.side_to_move))
        (generate_non_evasions pos) := by
    simp [generate_moves, h]
  rw [hgen, (removeIllegal_perm _ _).mem_iff, List.mem_filter]

/-- C1 witness: the legality-partition characterization evaluated at a
concrete not-in-check position. -/
theorem claim_C1_legal_partition_witness :
    posQuiet.is_check = false ∧
    ∀ m : Move, m ∈ generate_moves tablesZero posQuiet false ↔
      (m ∈ generate_non_evasions posQuiet ∧
       posQuiet.pl_move_is_legal m
         (posQuiet.pinned_pieces posQuiet.side_to_move) = true) :=
  ⟨rfl, claim_C1_legal_partition tablesZero posQuiet rfl⟩

/-! ### Evasion generation (claims C3 and C4) -/

theorem mem_evasionKingMoves {T : Tables} {pos : Position} {m : Move}
    (hm : m ∈ evasionKingMoves T pos) :
    move_from m = pos.king_square pos.side_to_move ∧
    move_to m < 64 ∧
    (evasionSliderAttacks T pos).testBit (move_to m) = false := by
  rw [evasionKingMoves] at hm
  simp only [List.mem_map] at hm
  obtain ⟨dst, hdst, rfl⟩ := hm
  have hmem := List.mem_filter.mp hdst
  have hlt : dst < 64 := List.mem_range.mp hmem.1
  have htb := hmem.2
  simp only [decide_eq_true_eq] at htb
  rw [Nat.testBit_and, Nat.testBit_and] at htb
  have hs : (bnot64 (evasionSliderAttacks T pos)).testBit dst = true := by
    simp only [Bool.and_eq_true] at htb
    exact htb.2
  rw [testBit_bnot64 hlt] at hs
  refine ⟨rfl, hlt, ?_⟩
  simpa using hs

/-- C4: when more than one piece checks the side to move, generate_evasions
returns exactly the king-move serialization (it stops before any blocking or
capturing move by another piece), so every emitted move has the king's
square as origin. -/
theorem claim_C4_double_check (T : Tables) (pos : Position)
    (h : 1 < (bitList pos.checkers).length) :
    generate_evasions T pos = evasionKingMoves T pos ∧
    ∀ m ∈ generate_evasions T pos,
      move_from m = pos.king_square pos.side_to_move := by
  have he : generate_evasions T pos = evasionKingMoves T pos := by
    rw [generate_evasions]
    simp [h]
  refine ⟨he, ?_⟩
  intro m hm
  rw [he] at hm
  exact (mem_evasionKingMoves hm).1

/-- C4 witness: the double-check theorem at a concrete two-checker
position. -/
theorem claim_C4_double_check_witness :
    1 < (bitList posDouble.checkers).length ∧
    (generate_evasions tablesZero posDouble =
       evasionKingMoves tablesZero posDouble ∧
     ∀ m ∈ generate_evasions tablesZero posDouble,
       move_from m = posDouble.king_square posDouble.side_to_move) :=
  ⟨by decide, claim_C4_double_check tablesZero posDouble (by decide)⟩

/-- C3: under a single slider checker, no king move emitted by
generate_evasions has a destination on that slider's empty-board attack ray
through its square (for a queen checker the excluded set is the union of
the two ray families selected by rook-line adjacency to the king); the king
moves are emitted first, ahead of everything else. -/
theorem claim_C3_slider_ray_excluded (T : Tables) (pos : Position)
    (checksq : Nat) (pt : PieceType)
    (h1 : bitList pos.checkers = [checksq])
    (h2 : (pos.piece_on checksq).map Prod.snd = some pt)
    (h3 : pt = .BISHOP ∨ pt = .ROOK ∨ pt = .QUEEN) :
    (∃ rest, generate_evasions T pos = evasionKingMoves T pos ++ rest) ∧
    ∀ m ∈ evasionKingMoves T pos,
      move_from m = pos.king_square pos.side_to_move ∧
      (match pt with
        | .BISHOP => T.BishopPseudoAttacks checksq
        | .ROOK => T.RookPseudoAttacks checksq
        | .QUEEN =>
            if (T.RookPseudoAttacks checksq).testBit
                 (pos.king_square pos.side_to_move) = true then
              T.RookPseudoAttacks checksq ||| pos.attacks_from .BISHOP checksq
            else
              T.BishopPseudoAttacks checksq ||| pos.attacks_from .ROOK checksq
        | _ => 0).testBit (move_to m) = false := by
  have hslider : evasionSliderAttacks T pos =
      sliderContribution T pos (pos.king_square pos.side_to_move) checksq := by
    rw [evasionSliderAttacks, h1]
    simp
  constructor
  · rw [generate_evasions]
    have hlen : ¬ 1 < (bitList pos.checkers).length := by
      rw [h1]
      simp
    simp only [hlen, if_false]
    simp only [List.append_assoc]
    exact ⟨_, rfl⟩
  · intro m hm
    obtain ⟨hfrom, hlt, hbit⟩ := mem_evasionKingMoves hm
    refine ⟨hfrom, ?_⟩
    rcases h3 with rfl | rfl | rfl
    · have hc : sliderContribution T pos
          (pos.king_square pos.side_to_move) checksq =
          T.BishopPseudoAttacks checksq := by
        simp only [sliderContribution]
        rw [h2]
      rw [← hc, ← hslider]
      exact hbit
    · have hc : sliderContribution T pos
          (pos.king_square pos.side_to_move) checksq =
          T.RookPseudoAttacks checksq := by
        simp only [sliderContribution]
        rw [h2]
      rw [← hc, ← hslider]
      exact hbit
    · have hc : sliderContribution T pos
          (pos.king_square pos.side_to_move) checksq =
          (if (T.RookPseudoAttacks checksq).testBit
               (pos.king_square pos.side_to_move) = true then
            T.RookPseudoAttacks checksq ||| pos.attacks_from .BISHOP checksq
          else
            T.BishopPseudoAttacks checksq |||
              pos.attacks_from .ROOK checksq) := by
        simp only [sliderContribution]
        rw [h2]
      rw [show (match PieceType.QUEEN with
        | PieceType.BISHOP => T.BishopPseudoAttacks checksq
        | PieceType.ROOK => T.RookPseudoAttacks checksq
        | PieceType.QUEEN =>
            if (T.RookPseudoAttacks checksq).testBit
                 (pos.king_square pos.side_to_move) = true then
              T.RookPseudoAttacks checksq ||| pos.attacks_from .BISHOP checksq
            else
              T.BishopPseudoAttacks checksq ||| pos.attacks_from .ROOK checksq
        | _ => 0) =
        (if (T.RookPseudoAttacks checksq).testBit
             (pos.king_square pos.side_to_move) = true then
          T.RookPseudoAttacks checksq ||| pos.attacks_from .BISHOP checksq
        else
          T.BishopPseudoAttacks checksq |||
            pos.attacks_from .ROOK checksq) from rfl]
      rw [← hc, ← hslider]
      exact hbit

/-- C3 witness: the slider-ray exclusion at a concrete position with a
single rook checker. -/
theorem claim_C3_slider_ray_excluded_witness :
    (bitList posRookCheck.checkers = [0] ∧
     (posRookCheck.piece_on 0).map Prod.snd = some PieceType.ROOK) ∧
    ((∃ rest, generate_evasions tablesRook posRookCheck =
        evasionKingMoves tablesRook posRookCheck ++ rest) ∧
     ∀ m ∈ evasionKingMoves tablesRook posRookCheck,
       move_from m = posRookCheck.king_square posRookCheck.side_to_move ∧
       (tablesRook.RookPseudoAttacks 0).testBit (move_to m) = false) :=
  ⟨⟨by decide, by decide⟩,
   claim_C3_slider_ray_excluded tablesRook posRookCheck 0 .ROOK (by decide)
     (by decide) (Or.inr (Or.inl rfl))⟩

/-! ### Castling generation (claim C5) -/

theorem length_ite_le_one {α : Type} {c : Prop} [Decidable c] (x : α) :
    (if c then ([] : List α) else [x]).length ≤ 1 := by
  by_cases hc : c
  · simp [hc]
  · simp [hc]

/-- C5: with the castling right available on the scanned side, no castling
move is emitted if any square in the closed interval from the lower to the
higher of the king's current and target squares is attacked by an opponent
piece (the king's final square need not itself be attacked), nor if a square
of that interval other than the king's or rook's own square is occupied;
and at most one move is emitted per call. -/
theorem claim_C5_castle_scan (side : CastlingSide) (pos : Position)
    (hright : (if side = .KING_SIDE
               then pos.can_castle_kingside pos.side_to_move
               else pos.can_castle_queenside pos.side_to_move) = true) :
    ((∃ s,
        min (pos.king_square pos.side_to_move)
            (relative_square pos.side_to_move
              (if side = .KING_SIDE then 6 else 2)) ≤ s ∧
        s ≤ max (pos.king_square pos.side_to_move)
            (relative_square pos.side_to_move
              (if side = .KING_SIDE then 6 else 2)) ∧
        pos.attackers_to s &&&
          pos.pieces_of_color (opposite_color pos.side_to_move) ≠ 0) →
      generate_castle_moves side pos = []) ∧
    ((∃ s,
        min (pos.king_square pos.side_to_move)
            (relative_square pos.side_to_move
              (if side = .KING_SIDE then 6 else 2)) ≤ s ∧
        s ≤ max (pos.king_square pos.side_to_move)
            (relative_square pos.side_to_move
              (if side = .KING_SIDE then 6 else 2)) ∧
        s ≠ pos.king_square pos.side_to_move ∧
        s ≠ (if side = .KING_SIDE then pos.initial_kr_square pos.side_to_move
             else pos.initial_qr_square pos.side_to_move) ∧
        (pos.piece_on s).isSome = true) →
      generate_castle_moves side pos = []) ∧
    (generate_castle_moves side pos).length ≤ 1 := by
  refine ⟨?_, ?_, ?_⟩
  · rintro ⟨s, hs1, hs2, hs3⟩
    have hill : castleKingPathIllegal pos (pos.king_square pos.side_to_move)
        (if side = .KING_SIDE then pos.initial_kr_square pos.side_to_move
         else pos.initial_qr_square pos.side_to_move)
        (relative_square pos.side_to_move
          (if side = .KING_SIDE then 6 else 2)) = true := by
      rw [castleKingPathIllegal, List.any_eq_true]
      refine ⟨s, ?_, ?_⟩
      · rw [rangeIncl, List.mem_range']
        have hmm : min (pos.king_square pos.side_to_move)
            (relative_square pos.side_to_move
              (if side = .KING_SIDE then 6 else 2)) ≤
          max (pos.king_square pos.side_to_move)
            (relative_square pos.side_to_move
              (if side = .KING_SIDE then 6 else 2)) := min_le_max
        exact ⟨s - min (pos.king_square pos.side_to_move)
            (relative_square pos.side_to_move
              (if side = .KING_SIDE then 6 else 2)), by omega, by omega⟩
      · simp only [decide_eq_true_eq]
        exact Or.inr hs3
    rw [generate_castle_moves]
    simp [hright, hill]
  · rintro ⟨s, hs1, hs2, hs3, hs4, hs5⟩
    have hill : castleKingPathIllegal pos (pos.king_square pos.side_to_move)
        (if side = .KING_SIDE then pos.initial_kr_square pos.side_to_move
         else pos.initial_qr_square pos.side_to_move)
        (relative_square pos.side_to_move
          (if side = .KING_SIDE then 6 else 2)) = true := by
      rw [castleKingPathIllegal, List.any_eq_true]
      refine ⟨s, ?_, ?_⟩
      · rw [rangeIncl, List.mem_range']
        have hmm : min (pos.king_square pos.side_to_move)
            (relative_square pos.side_to_move
              (if side = .KING_SIDE then 6 else 2)) ≤
          max (pos.king_square pos.side_to_move)
            (relative_square pos.side_to_move
              (if side = .KING_SIDE then 6 else 2)) := min_le_max
        exact ⟨s - min (pos.king_square pos.side_to_move)
            (relative_square pos.side_to_move
              (if side = .KING_SIDE then 6 else 2)), by omega, by omega⟩
      · simp only [decide_eq_true_eq]
        exact Or.inl ⟨hs3, hs4, hs5⟩
    rw [generate_castle_moves]
    simp [hright, hill]
  · rw [generate_castle_moves]
    by_cases h1 : (if side = CastlingSide.KING_SIDE
        then pos.can_castle_kingside pos.side_to_move
        else pos.can_castle_queenside pos.side_to_move) = true
    · rw [if_pos h1]
      exact length_ite_le_one _
    · rw [if_neg h1]
      simp

/-- C5 witness: the castling-scan theorem at a concrete position where White
may castle kingside and a black piece attacks transit square 5. -/
theorem claim_C5_castle_scan_witness :
    (if CastlingSide.KING_SIDE = CastlingSide.KING_SIDE
     then posCastle.can_castle_kingside posCastle.side_to_move
     else posCastle.can_castle_queenside posCastle.side_to_move) = true ∧
    (((∃ s,
        min (posCastle.king_square posCastle.side_to_move)
            (relative_square posCastle.side_to_move 6) ≤ s ∧
        s ≤ max (posCastle.king_square posCastle.side_to_move)
            (relative_square posCastle.side_to_move 6) ∧
        posCastle.attackers_to s &&&
          posCastle.pieces_of_color
            (opposite_color posCastle.side_to_move) ≠ 0) →
      generate_castle_moves .KING_SIDE posCastle = []) ∧
    ((∃ s,
        min (posCastle.king_square posCastle.side_to_move)
            (relative_square posCastle.side_to_move 6) ≤ s ∧
        s ≤ max (posCastle.king_square posCastle.side_to_move)
            (relative_square posCastle.side_to_move 6) ∧
        s ≠ posCastle.king_square posCastle.side_to_move ∧
        s ≠ posCastle.initial_kr_square posCastle.side_to_move ∧
        (posCastle.piece_on s).isSome = true) →
      generate_castle_moves .KING_SIDE posCastle = []) ∧
    (generate_castle_moves .KING_SIDE posCastle).length ≤ 1) :=
  ⟨by decide, claim_C5_castle_scan .KING_SIDE posCastle (by decide)⟩

/-! ### Fast single-move legality test (claim C10) -/

/-- C10: for a move not flagged special, the fast legality test returns
false whenever the origin square is not occupied by a piece of the side to
move, or the destination square is occupied by a piece of the side to move:
arbitrary non-pseudo-legal moves are rejected at the interface. -/
theorem claim_C10_fast_reject (T : Tables) (pos : Position) (m : Move)
    (pinned : Nat) (hpin : pinned = pos.pinned_pieces pos.side_to_move)
    (hsp : move_is_special m = false)
    (h : (pos.piece_on (move_from m)).map Prod.fst ≠ some pos.side_to_move ∨
         (pos.piece_on (move_to m)).map Prod.fst = some pos.side_to_move) :
    move_is_legal_fast T pos m pinned = false := by
  rw [move_is_legal_fast]
  simp only [hsp, Bool.false_eq_true, if_false]
  cases hpo : pos.piece_on (move_from m) with
  | none => simp [hpo]
  | some cp =>
    obtain ⟨c, pt⟩ := cp
    rcases h with h | h
    · have hc : ¬ (c = pos.side_to_move) := by
        intro heq
        apply h
        rw [hpo, heq]
        rfl
      simp [hpo, hc]
    · by_cases hc : c = pos.side_to_move
      · simp [hpo, hc, h]
      · simp [hpo, hc]

/-- C10 witness: the fast test rejects a move from an empty origin square on
a concrete position. -/
theorem claim_C10_fast_reject_witness :
    (posQuiet.pinned_pieces posQuiet.side_to_move =
       posQuiet.pinned_pieces posQuiet.side_to_move ∧
     move_is_special (make_move 0 1) = false ∧
     ((posQuiet.piece_on (move_from (make_move 0 1))).map Prod.fst ≠
        some posQuiet.side_to_move ∨
      (posQuiet.piece_on (move_to (make_move 0 1))).map Prod.fst =
        some posQuiet.side_to_move)) ∧
    move_is_legal_fast tablesZero posQuiet (make_move 0 1)
      (posQuiet.pinned_pieces posQuiet.side_to_move) = false :=
  ⟨⟨rfl, rfl, Or.inl (by decide)⟩,
   claim_C10_fast_reject tablesZero posQuiet (make_move 0 1) _ rfl rfl
     (Or.inl (by decide))⟩

/-! ### Check-category promotions (claim C9) -/

theorem knight_not_queenLine (s t : Nat) (h : knightAttacksB s t = true) :
    queenLinesB s t = false := by
  simp only [knightAttacksB, decide_eq_true_eq] at h
  simp only [queenLinesB, decide_eq_false_iff_not]
  intro hq
  obtain ⟨h1, h2, h3⟩ := h
  obtain ⟨_, _, _, hq4⟩ := hq
  simp only [fileDist, rankDist] at h3 hq4
  omega

theorem testBit_foldr_or (p : Nat → Bool) (t : Nat) :
    ∀ l : List Nat,
      ((l.foldr (fun i acc => acc ||| (if p i then 1 <<< i else 0)) 0).testBit
        t) = (decide (t ∈ l) && p t) := by
  intro l
  induction l with
  | nil => simp
  | cons a l ih =>
    rw [List.foldr_cons, Nat.testBit_or, ih]
    by_cases hpa : p a = true
    · rw [if_pos hpa]
      have h1 : (1 <<< a : Nat) = 2 ^ a := by
        rw [Nat.shiftLeft_eq, one_mul]
      rw [h1, Nat.testBit_two_pow]
      by_cases hat : a = t
      · subst hat
        simp [hpa]
      · have hta : ¬ (t = a) := fun hh => hat hh.symm
        simp [List.mem_cons, hat, hta]
    · have hpa' : p a = false := by simpa using hpa
      rw [if_neg hpa]
      by_cases hat : t = a
      · subst hat
        simp [hpa']
      · simp [List.mem_cons, hat]

theorem testBit_boardOf (p : Nat → Bool) (t : Nat) :
    (boardOf p).testBit t = (decide (t < 64) && p t) := by
  rw [boardOf, testBit_foldr_or]
  simp [List.mem_range]

theorem testBit_boardOf_knight (s t : Nat) :
    (boardOf (knightAttacksB s)).testBit t = knightAttacksB s t := by
  rw [testBit_boardOf]
  by_cases ht : t < 64
  · simp [ht]
  · have h0 : knightAttacksB s t = false := by
      simp only [knightAttacksB, decide_eq_false_iff_not]
      intro hq
      exact ht hq.2.1
    simp [ht, h0]

theorem testBit_boardOf_queen (s t : Nat) :
    (boardOf (queenLinesB s)).testBit t = queenLinesB s t := by
  rw [testBit_boardOf]
  by_cases ht : t < 64
  · simp [ht]
  · have h0 : queenLinesB s t = false := by
      simp only [queenLinesB, decide_eq_false_iff_not]
      intro hq
      exact ht hq.2.1
    simp [ht, h0]

theorem count_flatMap_ite {α : Type} [DecidableEq α] (mk : Nat → α)
    (hmk : ∀ a b, mk a = mk b → a = b) (cond : Nat → Prop)
    [DecidablePred cond] (l : List Nat) (hl : l.Nodup) (d : Nat)
    (hd : d ∈ l) :
    ((l.flatMap (fun x => if cond x then [mk x] else [])).count (mk d)) =
      if cond d then 1 else 0 := by
  induction l with
  | nil => cases hd
  | cons a l ih =>
    rw [List.flatMap_cons, List.count_append]
    have hnd := List.nodup_cons.mp hl
    rcases List.mem_cons.mp hd with heq | hd'
    · subst heq
      have hnotin : (mk d) ∉
          l.flatMap (fun x => if cond x then [mk x] else []) := by
        intro hmem
        obtain ⟨x, hx, hmx⟩ := List.mem_flatMap.mp hmem
        by_cases hc : cond x
        · rw [if_pos hc] at hmx
          have hdx := hmk _ _ (List.mem_singleton.mp hmx)
          exact hnd.1 (hdx ▸ hx)
        · rw [if_neg hc] at hmx
          cases hmx
      rw [List.count_eq_zero.mpr hnotin]
      by_cases hc : cond d
      · rw [if_pos hc, if_pos hc]
        simp
      · rw [if_neg hc, if_neg hc]
        simp
    · have had : a ≠ d := fun hh => hnd.1 (hh ▸ hd')
      have hhead : ((if cond a then [mk a] else []) : List α).count (mk d)
          = 0 := by
        by_cases hc : cond a
        · rw [if_pos hc]
          apply List.count_eq_zero.mpr
          simp only [List.mem_singleton]
          intro hmm2
          exact had (hmk _ _ hmm2.symm)
        · rw [if_neg hc]
          rfl
      rw [hhead, ih hnd.2 hd']
      simp

/-- C9: in check-category promotion generation, every emitted move is a
knight promotion (no rook, bishop or queen promotions), and for every
reachable promotion destination exactly one knight promotion is emitted
precisely when that knight promotion delivers check to the enemy king and
that check is not one a queen promotion would already deliver — under the
consistency hypotheses that the knight attack oracle is the knight-pattern
geometry and every queen attack lies on a queen line. -/
theorem claim_C9_check_promotions (us : Color) (delta : Int)
    (pos : Position) (pawnsOn7 target : Nat)
    (hkn : ∀ s t, (pos.attacks_from .KNIGHT s).testBit t = knightAttacksB s t)
    (hqu : ∀ s t, (pos.attacks_from .QUEEN s).testBit t = true →
      queenLinesB s t = true) :
    (∀ m ∈ generate_promotions us .CHECK delta pos pawnsOn7 target,
        m.kind = .PROMOTION ∧ m.promo = .KNIGHT) ∧
    ∀ dst ∈ bitList (promotionDestinations delta pawnsOn7 target),
      (generate_promotions us .CHECK delta pos pawnsOn7 target).count
          (make_promotion_move ((dst : Int) - delta).toNat dst .KNIGHT) =
        if ((pos.attacks_from .KNIGHT dst).testBit
              (pos.king_square (opposite_color us)) = true ∧
            ¬ ((pos.attacks_from .QUEEN dst).testBit
              (pos.king_square (opposite_color us)) = true))
        then 1 else 0 := by
  have hgen : generate_promotions us .CHECK delta pos pawnsOn7 target =
      (bitList (promotionDestinations delta pawnsOn7 target)).flatMap
        (fun dst =>
          if (pos.attacks_from .KNIGHT dst).testBit
              (pos.king_square (opposite_color us)) = true
          then [make_promotion_move ((dst : Int) - delta).toNat dst .KNIGHT]
          else []) := by
    rw [generate_promotions]
    refine congrArg (List.flatMap _) (funext fun dst => ?_)
    simp
  constructor
  · intro m hm
    rw [hgen] at hm
    obtain ⟨dst, hdst, hmem⟩ := List.mem_flatMap.mp hm
    by_cases hc : (pos.attacks_from .KNIGHT dst).testBit
        (pos.king_square (opposite_color us)) = true
    · rw [if_pos hc] at hmem
      rw [List.mem_singleton.mp hmem]
      exact ⟨rfl, rfl⟩
    · rw [if_neg hc] at hmem
      cases hmem
  · intro dst hdst
    have key : ((pos.attacks_from .KNIGHT dst).testBit
          (pos.king_square (opposite_color us)) = true ∧
        ¬ ((pos.attacks_from .QUEEN dst).testBit
          (pos.king_square (opposite_color us)) = true)) ↔
        (pos.attacks_from .KNIGHT dst).testBit
          (pos.king_square (opposite_color us)) = true := by
      constructor
      · exact And.left
      · intro hk
        refine ⟨hk, ?_⟩
        intro hq
        have h1 := hqu dst (pos.king_square (opposite_color us)) hq
        have h2 : knightAttacksB dst (pos.king_square (opposite_color us))
            = true := by
          rw [← hkn]
          exact hk
        have h3 := knight_not_queenLine dst
          (pos.king_square (opposite_color us)) h2
        rw [h3] at h1
        cases h1
    rw [hgen]
    rw [count_flatMap_ite
      (fun x => make_promotion_move ((x : Int) - delta).toNat x .KNIGHT)
      (fun a b hab => congrArg Move.dst hab)
      (fun x => (pos.attacks_from .KNIGHT x).testBit
        (pos.king_square (opposite_color us)) = true)
      (bitList (promotionDestinations delta pawnsOn7 target))
      (bitList_nodup _) dst hdst]
    simp only [key]

/-- C9 witness: the check-promotion characterization at a concrete position
whose knight and queen attack oracles follow the board geometry, with a
white pawn promoting from square 52 to square 60. -/
theorem claim_C9_check_promotions_witness :
    ((∀ s t, (posPromo.attacks_from .KNIGHT s).testBit t = knightAttacksB s t) ∧
     (∀ s t, (posPromo.attacks_from .QUEEN s).testBit t = true →
        queenLinesB s t = true)) ∧
    ((∀ m ∈ generate_promotions .WHITE .CHECK 8 posPromo (1 <<< 52)
          posPromo.empty_squares,
        m.kind = .PROMOTION ∧ m.promo = .KNIGHT) ∧
     ∀ dst ∈ bitList (promotionDestinations 8 (1 <<< 52)
          posPromo.empty_squares),
       (generate_promotions .WHITE .CHECK 8 posPromo (1 <<< 52)
           posPromo.empty_squares).count
           (make_promotion_move ((dst : Int) - 8).toNat dst .KNIGHT) =
         if ((posPromo.attacks_from .KNIGHT dst).testBit
               (posPromo.king_square (opposite_color .WHITE)) = true ∧
             ¬ ((posPromo.attacks_from .QUEEN dst).testBit
               (posPromo.king_square (opposite_color .WHITE)) = true))
         then 1 else 0) :=
  ⟨⟨fun s t => testBit_boardOf_knight s t,
    fun s t h => by
      rw [← testBit_boardOf_queen s t]
      exact h⟩,
   claim_C9_check_promotions .WHITE 8 posPromo (1 <<< 52)
     posPromo.empty_squares
     (fun s t => testBit_boardOf_knight s t)
     (fun s t h => by
       rw [← testBit_boardOf_queen s t]
       exact h)⟩
